import Mathlib

/-!
Verification of the entity-store collection engine.

This development shallowly embeds the engine of the repository
(`packages/core/src`): the entity-wrapping utility with dirty tracking
(`utils/createEntityProxy.ts`), the sort utility (`utils/sortEntities.ts`),
the state constructor, the mutation set (`actions/…`) and the query set
(`getters/…`).  JavaScript objects become association lists, JS `Record`s
with numeric keys become key-sorted association lists (matching the
ascending integer-key enumeration order of JS records), JS primitive
values become the inductive `JSVal` (floating-point `NaN` is outside the
model), and the ambient `Date.now()` clock becomes an explicit timestamp
argument.  The built-in stable `Array.prototype.sort` is modelled by a
fuel-indexed top-down stable merge sort proved equal to `List.mergeSort`.
-/

namespace EntityStore

/-- JavaScript primitive values that can occur as entity field values.
`nullV` and `undef` are distinct, matching `null` and `undefined`. -/
inductive JSVal where
  | num (n : Int)
  | str (s : String)
  | boolV (b : Bool)
  | nullV
  | undef
deriving DecidableEq, Repr

/-- Result of the JS `typeof` operator on a `JSVal`. -/
def typeOf : JSVal → String
  | .num _ => "number"
  | .str _ => "string"
  | .boolV _ => "boolean"
  | .nullV => "object"
  | .undef => "undefined"

/-- JS `String(v)` coercion on a `JSVal` (integers print as in JS). -/
def jsToString : JSVal → String
  | .num n => toString n
  | .str s => s
  | .boolV b => if b then "true" else "false"
  | .nullV => "null"
  | .undef => "undefined"

/-- JS loose test `v == null`, true exactly for `null` and `undefined`. -/
def isNullish : JSVal → Bool
  | .nullV => true
  | .undef => true
  | _ => false

/-- Lookup of an own property in an object modelled as an association list. -/
def lookupField : List (String × JSVal) → String → Option JSVal
  | [], _ => none
  | (k, v) :: rest, key => if k = key then some v else lookupField rest key

/-- Assignment to an existing own property: replaces the value in place,
preserving property order, as JS assignment does. -/
def setAssoc : List (String × JSVal) → String → JSVal → List (String × JSVal)
  | [], _, _ => []
  | (k, v0) :: rest, key, v =>
      if k = key then (k, v) :: rest else (k, v0) :: setAssoc rest key v

/-- JS `Set.add`: appends the key if absent, no-op if already present
(JS `Set` preserves insertion order). -/
def addToSet (s : List String) (k : String) : List String :=
  if k ∈ s then s else s ++ [k]

/-- The `$meta` object attached to a wrapped entity
(`types/EntityMeta.ts`). -/
structure EntityMeta where
  changedFields : List String
  createdAt : Int
  updatedAt : Option Int
deriving DecidableEq, Repr

/-- A wrapped entity: the spread entity fields plus the `$isDirty` flag and
the `$meta` object, i.e. the proxy target built by `createEntityProxy`. -/
structure EntityWithMeta where
  fields : List (String × JSVal)
  isDirty : Bool
  meta : EntityMeta
deriving DecidableEq, Repr

/-- A raw entity (`WithId`): an identifier plus the remaining own
properties in insertion order.  Identifiers are modelled as naturals. -/
structure Entity where
  id : Nat
  data : List (String × JSVal)
deriving DecidableEq, Repr

/-- Own properties of a raw entity as spread by `{...entity}`: the `id`
property followed by the remaining fields. -/
def payloadFields (e : Entity) : List (String × JSVal) :=
  ("id", JSVal.num e.id) :: e.data

/-- The wrapping utility `createEntityProxy` (`utils/createEntityProxy.ts`,
lines 4-14): spreads the entity and attaches `$isDirty = false` and
`$meta = { changedFields: ∅, createdAt: now, updatedAt: null }`. -/
def createEntityProxy (e : Entity) (now : Int) : EntityWithMeta :=
  { fields := payloadFields e
  , isDirty := false
  , meta := { changedFields := [], createdAt := now, updatedAt := none } }

/-- The proxy `set` trap of `createEntityProxy` (lines 16-41) for a data
property (any property other than the internal `$isDirty`/`$meta`, which
the trap handles first): if the key is an own property, the write applies
and, when the new value differs from the previous one by strict
inequality, `$isDirty` is set, the key joins `changedFields` and
`updatedAt` is stamped; equal writes apply silently; unknown keys are
added without any dirty tracking (default behavior branch). -/
def proxySetField (obj : EntityWithMeta) (prop : String) (value : JSVal)
    (now : Int) : EntityWithMeta :=
  match lookupField obj.fields prop with
  | some previous =>
      let obj1 : EntityWithMeta := { obj with fields := setAssoc obj.fields prop value }
      if previous ≠ value then
        { obj1 with
            isDirty := true
            meta := { obj1.meta with
                        changedFields := addToSet obj1.meta.changedFields prop
                        updatedAt := some now } }
      else obj1
  | none => { obj with fields := obj.fields ++ [(prop, value)] }

/-- The proxy `set` trap for the internal `$isDirty` flag: passes the write
through without touching fields or meta. -/
def proxySetIsDirtyFlag (obj : EntityWithMeta) (b : Bool) : EntityWithMeta :=
  { obj with isDirty := b }

/-- The proxy `set` trap for the internal `$meta` object: passes the write
through without touching fields or the flag. -/
def proxySetMeta (obj : EntityWithMeta) (m : EntityMeta) : EntityWithMeta :=
  { obj with meta := m }

/-- One observable operation on a single wrapped entity: an intercepted
data-field write, the `setIsDirty` action (`actions/setIsDirty.ts`, writes
`$isDirty = true` through the trap), or the `setIsNotDirty` action
(`src/unnamed/part_026`, `setIsNotDirty`, writes `$isDirty = false`). -/
inductive EntityOp where
  | write (prop : String) (v : JSVal) (now : Int)
  | markDirty
  | markNotDirty
deriving DecidableEq, Repr

/-- Interpretation of one `EntityOp` on a wrapped entity. -/
def applyOp (obj : EntityWithMeta) : EntityOp → EntityWithMeta
  | .write p v t => proxySetField obj p v t
  | .markDirty => proxySetIsDirtyFlag obj true
  | .markNotDirty => proxySetIsDirtyFlag obj false

/-- Interpretation of a sequence of `EntityOp`s, first op first. -/
def applyOps (obj : EntityWithMeta) (ops : List EntityOp) : EntityWithMeta :=
  ops.foldl applyOp obj

/-- A sequence of intercepted data-field writes only. -/
def applyFieldWrites (obj : EntityWithMeta)
    (ws : List (String × JSVal × Int)) : EntityWithMeta :=
  ws.foldl (fun o w => proxySetField o w.1 w.2.1 w.2.2) obj

/-- The dirty-tracking invariant claimed by the spec: the flag is set iff
the changed-field set is non-empty. -/
def dirtyInvariant (obj : EntityWithMeta) : Prop :=
  obj.isDirty = true ↔ obj.meta.changedFields ≠ []

instance (obj : EntityWithMeta) : Decidable (dirtyInvariant obj) := by
  unfold dirtyInvariant
  infer_instance

/-- Lookup in a JS record with numeric keys, modelled as an association
list (`byId[id]`). -/
def recordGet (r : List (Nat × EntityWithMeta)) (k : Nat) : Option EntityWithMeta :=
  (r.find? (fun p => p.1 = k)).map Prod.snd

/-- Assignment `r[k] = v` in a JS record with numeric keys: replaces the
value if the key exists, otherwise inserts it at its ascending-key
position (JS records enumerate integer-like keys in ascending order). -/
def recordSet (r : List (Nat × EntityWithMeta)) (k : Nat) (v : EntityWithMeta) :
    List (Nat × EntityWithMeta) :=
  match r with
  | [] => [(k, v)]
  | (k1, v1) :: rest =>
      if k = k1 then (k, v) :: rest
      else if k < k1 then (k, v) :: (k1, v1) :: rest
      else (k1, v1) :: recordSet rest k v

/-- The `delete r[k]` operation on a JS record. -/
def recordDelete (r : List (Nat × EntityWithMeta)) (k : Nat) :
    List (Nat × EntityWithMeta) :=
  r.filter (fun p => p.1 ≠ k)

/-- JS `Object.values(r)` on a record modelled as an association list. -/
def objectValues (r : List (Nat × EntityWithMeta)) : List EntityWithMeta :=
  r.map Prod.snd

/-- The `state.entities` record of the state container (`types/State.ts`). -/
structure StateEntities where
  byId : List (Nat × EntityWithMeta)
  allIds : List Nat
  current : Option EntityWithMeta
  currentById : Option Nat
  active : List Nat
deriving DecidableEq, Repr

/-- The state constructor `createState` (`src/unnamed/part_002`): a fresh
container with empty `byId`, empty `allIds`, null `current`, null
`currentById` and empty `active`. -/
def createState : StateEntities :=
  { byId := [], allIds := [], current := none, currentById := none, active := [] }

/-- The action `createOne` (`actions`, `createOne.ts`): appends the id to
`allIds` only when absent from both `byId` and `allIds`, then stores a
fresh wrap of the payload under its id. -/
def createOne (s : StateEntities) (payload : Entity) (now : Int) : StateEntities :=
  let s1 : StateEntities :=
    if (recordGet s.byId payload.id).isNone && !(s.allIds.contains payload.id) then
      { s with allIds := s.allIds ++ [payload.id] }
    else s
  { s1 with byId := recordSet s1.byId payload.id (createEntityProxy payload now) }

/-- The action `updateOne` (`actions`, `updateOne.ts`): when the id is in
`byId`, every own property of the payload is assigned onto the stored
proxy through the intercepted-write path; when absent, it falls back to
`createOne(payload)`. -/
def updateOne (s : StateEntities) (id : Nat) (payload : Entity) (now : Int) :
    StateEntities :=
  match recordGet s.byId id with
  | some proxy =>
      { s with
          byId := recordSet s.byId id
            ((payloadFields payload).foldl
              (fun p kv => proxySetField p kv.1 kv.2 now) proxy) }
  | none => createOne s payload now

/-- The action `deleteOne` (`actions`, `deleteOne.ts`): removes the id from
`byId`, filters it out of `allIds` and of `active`; `current` and
`currentById` are not touched. -/
def deleteOne (s : StateEntities) (id : Nat) : StateEntities :=
  { s with
      byId := recordDelete s.byId id
      allIds := s.allIds.filter (fun entityId => entityId ≠ id)
      active := s.active.filter (fun entityId => entityId ≠ id) }

/-- The action `setActive` (`actions`, `setActive.ts`): appends the id to
`active` only when it is not already in `active` and it exists in `byId`. -/
def setActive (s : StateEntities) (id : Nat) : StateEntities :=
  if !(s.active.contains id) && (recordGet s.byId id).isSome then
    { s with active := s.active ++ [id] }
  else s

/-- The getter `isAlreadyInStore` (`getters/isAlreadyInStore.ts`):
membership of the id in `allIds`. -/
def isAlreadyInStore (s : StateEntities) (id : Nat) : Bool :=
  s.allIds.contains id

/-- The getter `isAlreadyActive` (`getters/isAlreadyActive.ts`):
membership of the id in `active`. -/
def isAlreadyActive (s : StateEntities) (id : Nat) : Bool :=
  s.active.contains id

/-- JS `Array.from(new Set(xs))`: distinct elements in first-occurrence
order. -/
def jsSetOfList (seen : List Nat) : List Nat → List Nat
  | [] => []
  | x :: xs =>
      if seen.contains x then jsSetOfList seen xs
      else x :: jsSetOfList (x :: seen) xs

/-- The getter `getMissingIds` (`getters/getMissingIds.ts`): the requested
ids absent from `allIds`; deduplicated in first-occurrence order unless
`canHaveDuplicates` is set. -/
def getMissingIds (s : StateEntities) (ids : List Nat)
    (canHaveDuplicates : Bool) : List Nat :=
  let filteredIds := ids.filter (fun id => !(s.allIds.contains id))
  if !canHaveDuplicates then jsSetOfList [] filteredIds
  else filteredIds

/-- The filtering reduce shared by `getWhere`, `getWhereArray` and
`getFirstWhere`: folds over `allIds`, keeping the entities that pass the
filter, accumulated into a fresh record. -/
def filterReduce (s : StateEntities) (filter : EntityWithMeta → Bool) :
    List (Nat × EntityWithMeta) :=
  s.allIds.foldl
    (fun acc id =>
      match recordGet s.byId id with
      | none => acc
      | some item => if filter item then recordSet acc id item else acc)
    []

/-- The getter `getWhere` (`getters/getWhere.ts`): the matching entities as
a record; a non-callable filter (modelled as `none`) returns the whole
`byId` record.  Sort options are accepted and ignored. -/
def getWhere (s : StateEntities) (filter : Option (EntityWithMeta → Bool)) :
    List (Nat × EntityWithMeta) :=
  match filter with
  | none => s.byId
  | some f => filterReduce s f

/-- The getter `getFirstWhere` (`getters/getFirstWhere.ts` in
`getters/getActive.ts` lines 19-33): the first value of the filtered
record, or the first value of `byId` when the filter is not callable. -/
def getFirstWhere (s : StateEntities)
    (filter : Option (EntityWithMeta → Bool)) : Option EntityWithMeta :=
  match filter with
  | none => (objectValues s.byId).head?
  | some f => (objectValues (filterReduce s f)).head?

/-- Sort direction (`types/SortOptions.ts`), `asc` being the default. -/
inductive SortDir where
  | asc
  | desc
deriving DecidableEq, Repr

/-- The `orderBy` option: either a field name of the entity or a key
extractor function. -/
inductive OrderBy where
  | field (name : String)
  | func (f : EntityWithMeta → JSVal)

/-- Sort options (`types/SortOptions.ts`); both members are optional. -/
structure SortOptions where
  orderBy : Option OrderBy
  sortBy : Option SortDir

/-- Extraction of the sort key from an entity (`utils/sortEntities.ts`,
lines 22-39): an extractor function's value is used as returned, while a
field read is narrowed — string and number values pass through (as would
`Date` instances, which this value model does not contain), and anything
else (booleans, null, undefined, missing property) becomes `undefined`
and therefore sorts with the nullish values. -/
def getOrderValue : OrderBy → EntityWithMeta → JSVal
  | .field name, a =>
      match lookupField a.fields name with
      | some (JSVal.str s) => JSVal.str s
      | some (JSVal.num n) => JSVal.num n
      | _ => JSVal.undef
  | .func f, a => f a

/-- Lexicographic comparison of character sequences by code point,
modelling the JS `<` relation on strings. -/
def charListLt : List Char → List Char → Bool
  | [], [] => false
  | [], _ :: _ => true
  | _ :: _, [] => false
  | a :: as, b :: bs =>
      if a.toNat < b.toNat then true
      else if b.toNat < a.toNat then false
      else charListLt as bs

/-- JS `<` on strings: lexicographic by code unit (code point within the
basic multilingual plane, which covers every string this model meets). -/
def jsStrLt (a b : String) : Bool :=
  charListLt a.toList b.toList

/-- JS native `<` between two values of the same runtime type (the
comparator only reaches it after nullish handling and cross-type string
coercion; `NaN` is outside the model). -/
def jsLt : JSVal → JSVal → Bool
  | .num a, .num b => a < b
  | .str a, .str b => jsStrLt a b
  | .boolV a, .boolV b => !a && b
  | _, _ => false

/-- The comparator body of `sortEntities` (`utils/sortEntities.ts`, lines
26-59): nullish values first in ascending order, string coercion when the
runtime types differ, native comparison otherwise, and negation of the
result for descending order. -/
def compareVals (sortBy : SortDir) (aValue bValue : JSVal) : Int :=
  if isNullish aValue && isNullish bValue then 0
  else if isNullish aValue then (match sortBy with | .asc => -1 | .desc => 1)
  else if isNullish bValue then (match sortBy with | .asc => 1 | .desc => -1)
  else
    let a1 := if typeOf aValue ≠ typeOf bValue then JSVal.str (jsToString aValue) else aValue
    let b1 := if typeOf aValue ≠ typeOf bValue then JSVal.str (jsToString bValue) else bValue
    let comparison : Int := if jsLt a1 b1 then -1 else if jsLt b1 a1 then 1 else 0
    match sortBy with | .asc => comparison | .desc => -comparison

/-- The full entity comparator passed to the array sort. -/
def entityCompare (ob : OrderBy) (sortBy : SortDir) (a b : EntityWithMeta) : Int :=
  compareVals sortBy (getOrderValue ob a) (getOrderValue ob b)

/-- The non-strict order induced by a JS comparator `c`: element `a` may
stay before `b` exactly when `c a b ≤ 0`. -/
def entityLe (ob : OrderBy) (sortBy : SortDir) (a b : EntityWithMeta) : Bool :=
  decide (entityCompare ob sortBy a b ≤ 0)

/-- Fuel-indexed merge of two lists, agreeing with `List.merge` whenever
the fuel covers the combined length (kernel-reducible, unlike the
well-founded `List.merge`). -/
def jsMerge (le : α → α → Bool) : Nat → List α → List α → List α
  | _, [], ys => ys
  | _, xs, [] => xs
  | 0, xs, ys => xs ++ ys
  | f + 1, x :: xs, y :: ys =>
      if le x y then x :: jsMerge le f xs (y :: ys)
      else y :: jsMerge le f (x :: xs) ys

/-- Fuel-indexed top-down stable merge sort, agreeing with `List.mergeSort`
whenever the fuel covers the length. -/
def jsMergeSortFuel (le : α → α → Bool) : Nat → List α → List α
  | _, [] => []
  | _, [a] => [a]
  | 0, l => l
  | f + 1, l =>
      jsMerge le l.length
        (jsMergeSortFuel le f (l.take ((l.length + 1) / 2)))
        (jsMergeSortFuel le f (l.drop ((l.length + 1) / 2)))

/-- The model of the built-in stable `Array.prototype.sort` under a JS
comparator-induced order `le`.  When the comparator is consistent the
ECMAScript standard determines the output uniquely (the stable sorted
permutation), and this merge sort computes it; when the comparator is
inconsistent the standard leaves the order implementation-defined, and
this definition fixes one conforming choice. -/
def jsSort (le : α → α → Bool) (l : List α) : List α :=
  jsMergeSortFuel le l.length l

/-- The sort utility `sortEntities` (`utils/sortEntities.ts`): returns the
input when `orderBy` is absent, otherwise a stably sorted copy under the
comparator, with `sortBy` defaulting to ascending. -/
def sortEntities (entities : List EntityWithMeta) (options : Option SortOptions) :
    List EntityWithMeta :=
  match options with
  | none => entities
  | some opts =>
      match opts.orderBy with
      | none => entities
      | some orderBy =>
          let sortBy := opts.sortBy.getD SortDir.asc
          jsSort (entityLe orderBy sortBy) entities

/-- The getter `getWhereArray` (`getters/getWhereArray.ts`): array of the
matching entities, passed through `sortEntities` when `orderBy` is given;
a non-callable filter returns all values of `byId`. -/
def getWhereArray (s : StateEntities) (filter : Option (EntityWithMeta → Bool))
    (options : Option SortOptions) : List EntityWithMeta :=
  match filter with
  | none => objectValues s.byId
  | some f =>
      let filteredArray := objectValues (filterReduce s f)
      match options with
      | none => filteredArray
      | some opts =>
          match opts.orderBy with
          | none => filteredArray
          | some _ => sortEntities filteredArray options

/-! ### Helper lemmas about the record and object operations -/

theorem recordGet_recordSet_self (r : List (Nat × EntityWithMeta)) (k : Nat)
    (v : EntityWithMeta) : recordGet (recordSet r k v) k = some v := by
  induction r with
  | nil => simp [recordSet, recordGet, List.find?]
  | cons hd tl ih =>
      by_cases h1 : k = hd.1
      · simp [recordSet, ← h1, recordGet, List.find?]
      · by_cases h2 : k < hd.1
        · simp [recordSet, h1, h2, recordGet, List.find?]
        · simpa [recordSet, h1, h2, recordGet, List.find?, Ne.symm h1] using ih

theorem lookupField_setAssoc_self (fs : List (String × JSVal)) (p : String)
    (v : JSVal) (prev : JSVal) (h : lookupField fs p = some prev) :
    lookupField (setAssoc fs p v) p = some v := by
  induction fs with
  | nil => simp [lookupField] at h
  | cons hd tl ih =>
      by_cases h1 : hd.1 = p
      · simp [setAssoc, h1, lookupField]
      · simp only [lookupField, setAssoc, h1, if_false] at h ⊢
        exact ih h

theorem addToSet_ne_nil (s : List String) (k : String) : addToSet s k ≠ [] := by
  unfold addToSet
  by_cases h : k ∈ s
  · simp only [h, if_true]
    intro hnil
    rw [hnil] at h
    simp at h
  · simp [h]

theorem recordGet_recordDelete_self (r : List (Nat × EntityWithMeta)) (k : Nat) :
    recordGet (recordDelete r k) k = none := by
  induction r with
  | nil => simp [recordDelete, recordGet, List.find?]
  | cons hd tl ih =>
      by_cases h : hd.1 = k
      · rw [recordDelete, List.filter_cons_of_neg (by simp [h])]
        exact ih
      · rw [recordDelete, List.filter_cons_of_pos (by simp [h])]
        rw [recordGet, List.find?_cons_of_neg _ (by simp [h])]
        exact ih

theorem recordDelete_eq_self (r : List (Nat × EntityWithMeta)) (k : Nat)
    (h : recordGet r k = none) : recordDelete r k = r := by
  unfold recordDelete
  rw [List.filter_eq_self]
  intro a ha
  unfold recordGet at h
  have hf : List.find? (fun p => decide (p.1 = k)) r = none := by
    cases hfind : List.find? (fun p => decide (p.1 = k)) r with
    | none => rfl
    | some v => rw [hfind] at h; simp at h
  rw [List.find?_eq_none] at hf
  have := hf a ha
  simp only [decide_eq_true_eq] at this ⊢
  exact this

/-! ### The dedup used by `getMissingIds` -/

theorem mem_jsSetOfList (x : Nat) :
    ∀ (l seen : List Nat), x ∈ jsSetOfList seen l ↔ x ∈ l ∧ x ∉ seen := by
  intro l
  induction l with
  | nil => intro seen; simp [jsSetOfList]
  | cons hd tl ih =>
      intro seen
      by_cases h : seen.contains hd
      · have hhd : hd ∈ seen := by simpa using h
        rw [jsSetOfList, if_pos h, ih seen]
        simp only [List.mem_cons]
        constructor
        · rintro ⟨h1, h2⟩
          exact ⟨Or.inr h1, h2⟩
        · rintro ⟨h1 | h1, h2⟩
          · exact absurd (h1 ▸ hhd) h2
          · exact ⟨h1, h2⟩
      · have hhd : hd ∉ seen := by simpa using h
        rw [jsSetOfList, if_neg h]
        simp only [List.mem_cons, ih (hd :: seen), List.mem_cons]
        constructor
        · rintro (h1 | ⟨h1, h2⟩)
          · exact ⟨Or.inl h1, h1 ▸ hhd⟩
          · exact ⟨Or.inr h1, fun hs => h2 (Or.inr hs)⟩
        · rintro ⟨h1 | h1, h2⟩
          · exact Or.inl h1
          · by_cases hx : x = hd
            · exact Or.inl hx
            · exact Or.inr ⟨h1, fun hs => hs.elim hx h2⟩

theorem nodup_jsSetOfList : ∀ (l seen : List Nat), (jsSetOfList seen l).Nodup := by
  intro l
  induction l with
  | nil => intro seen; simp [jsSetOfList]
  | cons hd tl ih =>
      intro seen
      by_cases h : seen.contains hd
      · rw [jsSetOfList, if_pos h]; exact ih seen
      · rw [jsSetOfList, if_neg h]
        refine List.nodup_cons.mpr ⟨?_, ih (hd :: seen)⟩
        intro hmem
        rcases (mem_jsSetOfList hd tl (hd :: seen)).mp hmem with ⟨_, h2⟩
        exact h2 (List.mem_cons_self hd seen)

theorem jsSetOfList_eq_self : ∀ (l seen : List Nat), l.Nodup →
    (∀ x ∈ l, x ∉ seen) → jsSetOfList seen l = l := by
  intro l
  induction l with
  | nil => intro seen _ _; simp [jsSetOfList]
  | cons hd tl ih =>
      intro seen hnd hs
      have hhd : ¬ seen.contains hd := by
        intro hc
        exact hs hd (List.mem_cons_self hd tl) (by simpa using hc)
      rw [jsSetOfList, if_neg hhd]
      congr 1
      refine ih (hd :: seen) (List.nodup_cons.mp hnd).2 ?_
      intro x hx
      simp only [List.mem_cons]
      rintro (h1 | h1)
      · exact (List.nodup_cons.mp hnd).1 (h1 ▸ hx)
      · exact hs x (List.mem_cons_of_mem _ hx) h1

/-! ### The fuelled merge sort agrees with `List.mergeSort` -/

theorem jsMerge_eq_merge (le : α → α → Bool) :
    ∀ (f : Nat) (xs ys : List α), xs.length + ys.length ≤ f →
      jsMerge le f xs ys = List.merge xs ys le := by
  intro f
  induction f with
  | zero =>
      intro xs ys h
      match xs, ys with
      | [], ys => simp [jsMerge]
      | x :: xs, ys => simp at h
  | succ f ih =>
      intro xs ys h
      match xs, ys with
      | [], ys => simp [jsMerge]
      | x :: xs, [] => simp [jsMerge]
      | x :: xs, y :: ys =>
          rw [jsMerge, List.cons_merge_cons]
          by_cases hle : le x y
          · rw [if_pos hle, if_pos hle, ih xs (y :: ys) (by simp at h ⊢; omega)]
          · rw [if_neg hle, if_neg hle, ih (x :: xs) ys (by simp at h ⊢; omega)]

theorem jsMergeSortFuel_eq_mergeSort (le : α → α → Bool) :
    ∀ (f : Nat) (l : List α), l.length ≤ f →
      jsMergeSortFuel le f l = List.mergeSort l le := by
  intro f
  induction f with
  | zero =>
      intro l h
      match l with
      | [] => simp [jsMergeSortFuel]
      | [a] => simp at h
      | a :: b :: xs => simp at h
  | succ f ih =>
      intro l h
      match l with
      | [] => simp [jsMergeSortFuel]
      | [a] => simp [jsMergeSortFuel]
      | a :: b :: xs =>
          rw [show jsMergeSortFuel le (f + 1) (a :: b :: xs) =
                jsMerge le (a :: b :: xs).length
                  (jsMergeSortFuel le f
                    ((a :: b :: xs).take (((a :: b :: xs).length + 1) / 2)))
                  (jsMergeSortFuel le f
                    ((a :: b :: xs).drop (((a :: b :: xs).length + 1) / 2)))
              from rfl]
          rw [List.mergeSort]
          simp only [List.splitInTwo, List.splitAt_eq]
          have hlen : (a :: b :: xs).length = xs.length + 2 := by simp
          have h1 : ((a :: b :: xs).take ((xs.length + 2 + 1) / 2)).length ≤ f := by
            simp only [List.length_take, hlen]
            simp at h
            omega
          have h2 : ((a :: b :: xs).drop ((xs.length + 2 + 1) / 2)).length ≤ f := by
            simp only [List.length_drop, hlen]
            simp at h
            omega
          rw [hlen]
          rw [ih _ h1, ih _ h2]
          apply jsMerge_eq_merge
          simp only [List.length_mergeSort, List.length_take, List.length_drop, hlen]
          omega

theorem jsSort_eq_mergeSort (le : α → α → Bool) (l : List α) :
    jsSort le l = List.mergeSort l le :=
  jsMergeSortFuel_eq_mergeSort le l.length l (Nat.le_refl _)

/-! ### Dirty-tracking lemmas -/

theorem addToSet_mem (s : List String) (k : String) : k ∈ addToSet s k := by
  unfold addToSet
  by_cases hmem : k ∈ s
  · rw [if_pos hmem]; exact hmem
  · rw [if_neg hmem]; simp

theorem dirtyInvariant_createEntityProxy (e : Entity) (t : Int) :
    dirtyInvariant (createEntityProxy e t) := by
  simp [dirtyInvariant, createEntityProxy]

theorem dirtyInvariant_proxySetField (obj : EntityWithMeta) (p : String)
    (v : JSVal) (t : Int) (h : dirtyInvariant obj) :
    dirtyInvariant (proxySetField obj p v t) := by
  cases hl : lookupField obj.fields p with
  | none =>
      simp only [proxySetField, hl]
      simpa [dirtyInvariant] using h
  | some prev =>
      simp only [proxySetField, hl]
      by_cases hv : prev ≠ v
      · rw [if_pos hv]
        simp [dirtyInvariant, addToSet_ne_nil]
      · rw [if_neg hv]
        simpa [dirtyInvariant] using h

theorem dirtyInvariant_applyFieldWrites (ws : List (String × JSVal × Int)) :
    ∀ obj : EntityWithMeta, dirtyInvariant obj →
      dirtyInvariant (applyFieldWrites obj ws) := by
  induction ws with
  | nil => intro obj h; exact h
  | cons w ws ih =>
      intro obj h
      exact ih _ (dirtyInvariant_proxySetField obj w.1 w.2.1 w.2.2 h)

/-- A concrete raw entity used by the concrete instances below. -/
def sampleEntity : Entity :=
  { id := 1, data := [("name", JSVal.str "A"), ("age", JSVal.num 10)] }

/-- The sample entity wrapped at time 0. -/
def sampleProxy : EntityWithMeta := createEntityProxy sampleEntity 0

/-! ### Claim C1 -/

/-- C1, counterexample.  The claim — `isDirty == true` iff
`meta.changedFields` is non-empty at every observable point, the only
exception being the state immediately after `setIsNotDirty`, which is said
to clear both together — is false on the code.  First conjunct: after a
single `setIsDirty` on a freshly wrapped entity the flag is true while
`changedFields` is empty, so the equivalence fails at a point not covered
by the exception.  Second conjunct: `setIsNotDirty` after a real field
write clears only the flag and leaves `changedFields` non-empty, so the
exception's "clears both together" is also false. -/
theorem c1_dirty_iff_counterexample :
    ¬ dirtyInvariant (applyOps (createEntityProxy sampleEntity 0) [EntityOp.markDirty]) ∧
    (applyOps (createEntityProxy sampleEntity 0)
        [EntityOp.write "name" (JSVal.str "B") 5,
         EntityOp.markNotDirty]).meta.changedFields ≠ [] ∧
    (applyOps (createEntityProxy sampleEntity 0)
        [EntityOp.write "name" (JSVal.str "B") 5,
         EntityOp.markNotDirty]).isDirty = false := by
  decide

/-- C1, amended: the equivalence `isDirty == true` iff
`meta.changedFields` non-empty holds after construction and after every
sequence of intercepted field writes; the explicit `setIsDirty` and
`setIsNotDirty` actions, however, write only the flag and never touch
`changedFields`, so the equivalence is not maintained across them. -/
theorem c1_dirty_iff_after_writes (e : Entity) (t : Int)
    (ws : List (String × JSVal × Int)) :
    dirtyInvariant (applyFieldWrites (createEntityProxy e t) ws) :=
  dirtyInvariant_applyFieldWrites ws _ (dirtyInvariant_createEntityProxy e t)

/-! ### Claim C2 -/

/-- C2: behavior of every intercepted write.  For a key already present:
the write applies, and when the new value differs by strict inequality the
flag is set, the key joins `changedFields` and `updatedAt` is stamped with
the current time, while an equal write changes only the field slot (so
flag and meta are untouched).  For a key not present the write applies
with no dirty tracking.  Writes to the internal `$isDirty` and `$meta`
properties pass through, touching nothing else. -/
theorem c2_intercepted_write (obj : EntityWithMeta) (p : String) (v : JSVal)
    (t : Int) :
    (∀ prev, lookupField obj.fields p = some prev →
       lookupField (proxySetField obj p v t).fields p = some v ∧
       (prev ≠ v →
          (proxySetField obj p v t).isDirty = true ∧
          p ∈ (proxySetField obj p v t).meta.changedFields ∧
          (proxySetField obj p v t).meta.updatedAt = some t) ∧
       (prev = v →
          proxySetField obj p v t =
            { obj with fields := setAssoc obj.fields p v })) ∧
    (lookupField obj.fields p = none →
       proxySetField obj p v t =
         { obj with fields := obj.fields ++ [(p, v)] }) ∧
    (∀ b, (proxySetIsDirtyFlag obj b).isDirty = b ∧
          (proxySetIsDirtyFlag obj b).fields = obj.fields ∧
          (proxySetIsDirtyFlag obj b).meta = obj.meta) ∧
    (∀ m, (proxySetMeta obj m).meta = m ∧
          (proxySetMeta obj m).fields = obj.fields ∧
          (proxySetMeta obj m).isDirty = obj.isDirty) := by
  refine ⟨?_, ?_, fun b => ⟨rfl, rfl, rfl⟩, fun m => ⟨rfl, rfl, rfl⟩⟩
  · intro prev hprev
    refine ⟨?_, ?_, ?_⟩
    · have hfields : (proxySetField obj p v t).fields = setAssoc obj.fields p v := by
        simp only [proxySetField, hprev]
        by_cases hv : prev ≠ v
        · rw [if_pos hv]
        · rw [if_neg hv]
      rw [hfields]
      exact lookupField_setAssoc_self obj.fields p v prev hprev
    · intro hne
      simp only [proxySetField, hprev]
      rw [if_pos hne]
      exact ⟨rfl, addToSet_mem obj.meta.changedFields p, rfl⟩
    · intro heq
      simp only [proxySetField, hprev]
      rw [if_neg (by simp [heq])]
  · intro hnone
    simp only [proxySetField, hnone]

/-- C2, witness: the three reachable branches of `c2_intercepted_write`
at concrete inputs — a differing write to `"name"`, an equal write to
`"name"`, and a write to the absent key `"extra"`. -/
theorem c2_intercepted_write_witness :
    (proxySetField sampleProxy "name" (JSVal.str "B") 5).isDirty = true ∧
    "name" ∈ (proxySetField sampleProxy "name" (JSVal.str "B") 5).meta.changedFields ∧
    (proxySetField sampleProxy "name" (JSVal.str "B") 5).meta.updatedAt = some 5 ∧
    proxySetField sampleProxy "name" (JSVal.str "A") 5 =
      { sampleProxy with fields := setAssoc sampleProxy.fields "name" (JSVal.str "A") } ∧
    proxySetField sampleProxy "extra" (JSVal.num 7) 5 =
      { sampleProxy with fields := sampleProxy.fields ++ [("extra", JSVal.num 7)] } := by
  have h1 := (c2_intercepted_write sampleProxy "name" (JSVal.str "B") 5).1
    (JSVal.str "A") (by decide)
  have h2 := (c2_intercepted_write sampleProxy "name" (JSVal.str "A") 5).1
    (JSVal.str "A") (by decide)
  have h3 := (c2_intercepted_write sampleProxy "extra" (JSVal.num 7) 5).2.1 (by decide)
  obtain ⟨ha, hb, _⟩ := h1.2.1 (by decide)
  exact ⟨ha, hb, h1.2.1 (by decide) |>.2.2, h2.2.2 rfl, h3⟩

/-! ### Claim C3 -/

/-- A sequence of `createOne` calls applied to the fresh state, each with
its payload and timestamp. -/
def applyCreates (ps : List (Entity × Int)) : StateEntities :=
  ps.foldl (fun s p => createOne s p.1 p.2) createState

theorem createOne_allIds_nodup (s : StateEntities) (e : Entity) (t : Int)
    (h : s.allIds.Nodup) : ((createOne s e t).allIds).Nodup := by
  unfold createOne
  by_cases hc : ((recordGet s.byId e.id).isNone && !(s.allIds.contains e.id)) = true
  · have hmem : e.id ∉ s.allIds := by
      have h2 := (Bool.and_eq_true _ _).mp hc
      simpa using h2.2
    rw [hc]
    simp [List.nodup_append, h, hmem]
  · rw [Bool.not_eq_true] at hc
    rw [hc]
    simp [h]

/-- C3: starting from `createState`, any sequence of `createOne` calls
leaves `allIds` duplicate-free; moreover, creating an identifier that is
already in the store leaves `allIds` unchanged and overwrites the `byId`
entry with a fresh wrap of the payload. -/
theorem c3_allIds_unique (ps : List (Entity × Int)) :
    (applyCreates ps).allIds.Nodup ∧
    ∀ (s : StateEntities) (e : Entity) (t : Int),
      isAlreadyInStore s e.id = true →
        (createOne s e t).allIds = s.allIds ∧
        recordGet (createOne s e t).byId e.id = some (createEntityProxy e t) := by
  constructor
  · have main : ∀ (qs : List (Entity × Int)) (s : StateEntities), s.allIds.Nodup →
        (qs.foldl (fun s p => createOne s p.1 p.2) s).allIds.Nodup := by
      intro qs
      induction qs with
      | nil => intro s h; exact h
      | cons q qs ih =>
          intro s h
          exact ih _ (createOne_allIds_nodup s q.1 q.2 h)
    exact main ps createState (by simp [createState])
  · intro s e t hin
    have hm : e.id ∈ s.allIds := by simpa [isAlreadyInStore] using hin
    have hcond : ((recordGet s.byId e.id).isNone && !(s.allIds.contains e.id)) = false := by
      simp [hm]
    constructor
    · unfold createOne
      rw [hcond]
      simp
    · unfold createOne
      rw [hcond]
      simp only [Bool.false_eq_true, if_false]
      exact recordGet_recordSet_self s.byId e.id (createEntityProxy e t)

/-- C3, witness: creating the same entity twice from the fresh state keeps
`allIds` duplicate-free, and the second `createOne` does not extend
`allIds`. -/
theorem c3_allIds_unique_witness :
    (applyCreates [(sampleEntity, 0), (sampleEntity, 3)]).allIds.Nodup ∧
    (createOne (createOne createState sampleEntity 0) sampleEntity 3).allIds
      = (createOne createState sampleEntity 0).allIds := by
  refine ⟨(c3_allIds_unique [(sampleEntity, 0), (sampleEntity, 3)]).1, ?_⟩
  exact ((c3_allIds_unique []).2 (createOne createState sampleEntity 0)
    sampleEntity 3 (by decide)).1

/-! ### Claim C4 -/

/-- C4: updating an identifier that is absent from `byId` is the
`createOne` fallback — the whole resulting state is identical. -/
theorem c4_upsert (s : StateEntities) (e : Entity) (t : Int)
    (h : recordGet s.byId e.id = none) :
    updateOne s e.id e t = createOne s e t := by
  simp [updateOne, h]

/-- C4, witness: upserting the sample entity into the empty state. -/
theorem c4_upsert_witness :
    updateOne createState sampleEntity.id sampleEntity 0
      = createOne createState sampleEntity 0 :=
  c4_upsert createState sampleEntity 0 (by decide)

/-! ### Claim C5 -/

/-- C5: after `deleteOne id` the id is gone from `byId`, `allIds` and
`active` (so both membership getters answer false); `current` and
`currentById` are untouched; and deleting an id absent from all three is
a no-op on the whole state. -/
theorem c5_delete_completeness (s : StateEntities) (id : Nat) :
    isAlreadyInStore (deleteOne s id) id = false ∧
    isAlreadyActive (deleteOne s id) id = false ∧
    recordGet (deleteOne s id).byId id = none ∧
    (deleteOne s id).current = s.current ∧
    (deleteOne s id).currentById = s.currentById ∧
    (isAlreadyInStore s id = false → isAlreadyActive s id = false →
      recordGet s.byId id = none → deleteOne s id = s) := by
  refine ⟨?_, ?_, recordGet_recordDelete_self s.byId id, rfl, rfl, ?_⟩
  · simp [isAlreadyInStore, deleteOne]
  · simp [isAlreadyActive, deleteOne]
  · intro h1 h2 h3
    have hnin : id ∉ s.allIds := by simpa [isAlreadyInStore] using h1
    have hnact : id ∉ s.active := by simpa [isAlreadyActive] using h2
    have e1 : recordDelete s.byId id = s.byId := recordDelete_eq_self s.byId id h3
    have e2 : s.allIds.filter (fun entityId => entityId ≠ id) = s.allIds := by
      rw [List.filter_eq_self]
      intro a ha
      simp only [decide_eq_true_eq]
      exact fun he => hnin (he ▸ ha)
    have e3 : s.active.filter (fun entityId => entityId ≠ id) = s.active := by
      rw [List.filter_eq_self]
      intro a ha
      simp only [decide_eq_true_eq]
      exact fun he => hnact (he ▸ ha)
    unfold deleteOne
    rw [e1, e2, e3]

/-- C5, witness: deleting the absent id 2 from a one-entity store leaves
it out of the store and changes nothing. -/
theorem c5_delete_completeness_witness :
    isAlreadyInStore (deleteOne (createOne createState sampleEntity 0) 2) 2 = false ∧
    deleteOne (createOne createState sampleEntity 0) 2
      = createOne createState sampleEntity 0 := by
  have h := c5_delete_completeness (createOne createState sampleEntity 0) 2
  exact ⟨h.1, h.2.2.2.2.2 (by decide) (by decide) (by decide)⟩

/-! ### Claim C6 -/

/-- C6: `setActive` appends the id only when it exists in `byId` and is
not yet active; two calls with the same existing id leave the id in
`active` exactly once (given it occurred at most once before); a call with
an id absent from `byId` leaves the state unchanged, as does a call with
an id already active. -/
theorem c6_setActive (s : StateEntities) (id : Nat) :
    ((recordGet s.byId id).isSome = true →
       (s.active.contains id = false → (setActive s id).active = s.active ++ [id]) ∧
       (s.active.count id ≤ 1 →
          (setActive (setActive s id) id).active.count id = 1)) ∧
    ((recordGet s.byId id).isSome = false → setActive s id = s) ∧
    (s.active.contains id = true → setActive s id = s) := by
  refine ⟨?_, ?_, ?_⟩
  · intro hsome
    constructor
    · intro hnc
      have hm : id ∉ s.active := by simpa using hnc
      have hcond : (!(s.active.contains id) && (recordGet s.byId id).isSome) = true := by
        simp [hm, hsome]
      unfold setActive
      rw [hcond]
      simp
    · intro hcount
      by_cases hm : id ∈ s.active
      · have hcond : (!(s.active.contains id) && (recordGet s.byId id).isSome) = false := by
          simp [hm]
        have h1 : setActive s id = s := by
          unfold setActive
          rw [hcond]
          simp
        have hpos : 0 < s.active.count id := List.count_pos_iff.mpr hm
        rw [h1, h1]
        omega
      · have hcond : (!(s.active.contains id) && (recordGet s.byId id).isSome) = true := by
          simp [hm, hsome]
        have h1 : (setActive s id).active = s.active ++ [id] := by
          unfold setActive
          rw [hcond]
          simp
        have hm2 : id ∈ (setActive s id).active := by simp [h1]
        have hcond2 : (!((setActive s id).active.contains id)
            && (recordGet (setActive s id).byId id).isSome) = false := by
          simp [hm2]
        have h2 : setActive (setActive s id) id = setActive s id := by
          generalize hs2 : setActive s id = s2 at hcond2 ⊢
          unfold setActive
          rw [hcond2]
          simp
        have h0 : s.active.count id = 0 := List.count_eq_zero.mpr hm
        rw [h2, h1]
        simp [h0]
  · intro hnone
    have hcond : (!(s.active.contains id) && (recordGet s.byId id).isSome) = false := by
      simp [hnone]
    unfold setActive
    rw [hcond]
    simp
  · intro hc
    have hm : id ∈ s.active := by simpa using hc
    have hcond : (!(s.active.contains id) && (recordGet s.byId id).isSome) = false := by
      simp [hm]
    unfold setActive
    rw [hcond]
    simp

/-- One-entity store used by the concrete instances: the sample entity
created into the fresh state at time 0. -/
def sampleStore : StateEntities := createOne createState sampleEntity 0

/-- C6, witness: activating id 1 twice in a store holding entity 1 yields
exactly one occurrence; activating the absent id 999 changes nothing. -/
theorem c6_setActive_witness :
    (setActive (setActive sampleStore 1) 1).active.count 1 = 1 ∧
    setActive sampleStore 999 = sampleStore := by
  refine ⟨((c6_setActive sampleStore 1).1 (by decide)).2 (by decide), ?_⟩
  exact (c6_setActive sampleStore 999).2.1 (by decide)

/-! ### Claim C7 -/

/-- C7: `getMissingIds` returns exactly the requested ids absent from
`allIds`.  With duplicates allowed the multiplicity of the input is
preserved; with the default deduplication the result is duplicate-free
and has exactly the absent requested ids as members; requesting only
stored ids yields the empty list; and requesting `allIds ++ extras` for
fresh duplicate-free extras yields exactly `extras`. -/
theorem c7_missing_ids (s : StateEntities) (ids : List Nat) :
    (∀ x, (getMissingIds s ids true).count x =
        if s.allIds.contains x then 0 else ids.count x) ∧
    (∀ x, x ∈ getMissingIds s ids false ↔
        x ∈ ids ∧ s.allIds.contains x = false) ∧
    (getMissingIds s ids false).Nodup ∧
    ((∀ x ∈ ids, s.allIds.contains x = true) →
        getMissingIds s ids true = [] ∧ getMissingIds s ids false = []) ∧
    (∀ extras : List Nat, extras.Nodup →
        (∀ x ∈ extras, s.allIds.contains x = false) →
        getMissingIds s (s.allIds ++ extras) false = extras) := by
  refine ⟨?_, ?_, ?_, ?_, ?_⟩
  · intro x
    by_cases hx : x ∈ s.allIds
    · have hc : s.allIds.contains x = true := by simpa using hx
      rw [if_pos hc]
      apply List.count_eq_zero.mpr
      intro hmem
      rw [getMissingIds] at hmem
      simp at hmem
      exact hmem.2 hx
    · have hc : s.allIds.contains x = false := by simpa using hx
      rw [if_neg (by rw [hc]; simp)]
      rw [getMissingIds]
      simp only [Bool.not_true, if_false]
      have hside : (!(s.allIds.contains x)) = true := by rw [hc]; decide
      exact List.count_filter hside
  · intro x
    rw [getMissingIds]
    simp only [Bool.not_false, if_true]
    rw [mem_jsSetOfList]
    simp [List.mem_filter]
  · rw [getMissingIds]
    simp only [Bool.not_false, if_true]
    exact nodup_jsSetOfList _ []
  · intro hall
    have hfil : ids.filter (fun id => !(s.allIds.contains id)) = [] := by
      rw [List.filter_eq_nil_iff]
      intro a ha
      rw [hall a ha]
      decide
    constructor
    · rw [getMissingIds]
      simp only [Bool.not_true, Bool.false_eq_true, if_false]
      exact hfil
    · rw [getMissingIds]
      simp only [Bool.not_false, if_true]
      rw [hfil]
      rfl
  · intro extras hnd hfresh
    rw [getMissingIds]
    simp only [Bool.not_false, if_true]
    rw [List.filter_append]
    have hfil1 : s.allIds.filter (fun id => !(s.allIds.contains id)) = [] := by
      rw [List.filter_eq_nil_iff]
      intro a ha
      have hc : s.allIds.contains a = true := by simpa using ha
      rw [hc]
      decide
    have hfil2 : extras.filter (fun id => !(s.allIds.contains id)) = extras := by
      rw [List.filter_eq_self]
      intro a ha
      rw [hfresh a ha]
      decide
    rw [hfil1, hfil2, List.nil_append]
    exact jsSetOfList_eq_self extras [] hnd (by simp)

/-- C7, witness: in the one-entity store (id 1), requesting a duplicated
mix returns the absent ids with duplicates preserved or collapsed, and
the two symmetry instances hold. -/
theorem c7_missing_ids_witness :
    (getMissingIds sampleStore [2, 2, 1] true).count 2 = 2 ∧
    (getMissingIds sampleStore [2, 2, 1] false) = [2] ∧
    getMissingIds sampleStore [1, 1] true = [] ∧
    getMissingIds sampleStore ([1] ++ [5, 7]) false = [5, 7] := by
  have h := c7_missing_ids sampleStore [2, 2, 1]
  refine ⟨?_, ?_, ?_, ?_⟩
  · have h1 := h.1 2
    rw [h1]
    decide
  · decide
  · exact ((c7_missing_ids sampleStore [1, 1]).2.2.2.1 (by decide)).1
  · have h4 := (c7_missing_ids sampleStore [1]).2.2.2.2 [5, 7] (by decide) (by decide)
    have hall : sampleStore.allIds = [1] := by decide
    rw [hall] at h4
    exact h4

/-! ### Claim C9 -/

/-- C9: a non-callable filter argument (modelled as `none`) never fails:
`getWhere` returns the whole `byId` record, `getWhereArray` returns all
entities as an array, and `getFirstWhere` returns the very first entity of
`byId` (or nothing when the store is empty); all three getters are total
functions, so no exception can occur. -/
theorem c9_non_callable_filter (s : StateEntities) (options : Option SortOptions) :
    getWhere s none = s.byId ∧
    getWhereArray s none options = objectValues s.byId ∧
    getFirstWhere s none = (objectValues s.byId).head? :=
  ⟨rfl, rfl, rfl⟩

/-! ### Claim C10 -/

/-- C10: immediately after `createOne`, whatever was previously stored
under the identifier, the `byId` entry is a fresh wrap of the payload:
`isDirty` is false, `changedFields` is empty and `updatedAt` is null —
previous dirty state is discarded, never merged. -/
theorem c10_createOne_fresh_wrap (s : StateEntities) (e : Entity) (t : Int) :
    recordGet (createOne s e t).byId e.id = some (createEntityProxy e t) ∧
    (createEntityProxy e t).isDirty = false ∧
    (createEntityProxy e t).meta.changedFields = [] ∧
    (createEntityProxy e t).meta.updatedAt = none :=
  ⟨recordGet_recordSet_self _ e.id _, rfl, rfl, rfl⟩

end EntityStore
